import Mathlib

/-!
Verification of the kanidm query-server core (server.rs, idl_arc_sqlite.rs,
interval.rs) against its natural-language specification.

The embedding models the write-transaction pipeline of
`QueryServerWriteTransaction` (delete, modify, revive_recycled,
purge_recycled, purge_tombstones, commit), the read helpers
`name_to_uuid` / `uuid_to_name`, and the commit/acquisition ordering of
the layered caches.  Components of the repository that are not part of
the analysed sources (the entry state machine, the backend row store,
the schema catalogue, the access-control evaluator and the plugin
pipeline) are modelled from the specification; each such definition is
marked `Modelled from the spec:` in its doc comment.
-/

namespace Kanidm

/-- Entry identifiers: 64-bit ids of the id2entry table, modelled as Nat. -/
abbrev EntryId := Nat

/-- Universally unique identifiers, modelled as Nat. -/
abbrev Uuid := Nat

/-- Modelled from the spec: a change identifier is
`(server_uuid, domain_uuid, duration_since_epoch)` (spec section 3, GLOSSARY);
`repl/cid.rs` is not among the analysed sources.  Lifecycle age predicates
compare only the timestamp component, retained here in seconds. -/
structure Cid where
  ts : Nat
deriving DecidableEq, Repr

/-- Error taxonomy of the server (spec section 7, `OperationError` in
`kanidm_proto`); only the kinds reached by the modelled operations appear. -/
inductive OperationError where
  | emptyRequest
  | noMatchingEntries
  | accessDenied
  | schemaViolation
  | invalidDBState
  | invalidEntryState
  | invalidRequest
  | backendError
  | consistencyError
deriving DecidableEq, Repr

/-- Modelled from the spec: `cid.sub_secs` used by the purge filters
(server.rs 1147, 1188) returns an error when the subtraction underflows
(the call sites wrap it in error propagation). -/
def Cid.subSecs (c : Cid) (secs : Nat) : Except OperationError Cid :=
  if c.ts < secs then .error .invalidRequest else .ok ⟨c.ts - secs⟩

/-- Boolean comparison of change identifiers by timestamp, the order used by
the `f_lt("last_modified_cid", _)` filters of the purge operations. -/
def Cid.ltCid (a b : Cid) : Bool := decide (a.ts < b.ts)

/-- Attribute values.  Modelled from the spec: a `Value` is a tagged union
over syntaxes (spec section 3); the claims below only need utf8-style
values and reference values holding a UUID. -/
inductive Value where
  | s (v : String)
  | ref (u : Uuid)
deriving DecidableEq, Repr

/-- Modelled from the spec: an entry is an identified tuple of
attribute name to multi-valued set of typed values, with `uuid` immutable
and `last_modified_cid` tagged on every mutation (spec section 3).
`entry.rs` is not among the analysed sources; the typestate discipline
(Invalid/Valid/Sealed) is erased since the shallow embedding follows the
data flow of server.rs directly. -/
structure Entry where
  id : EntryId
  uuid : Uuid
  attrs : List (String × List Value)
  lastModCid : Cid
deriving DecidableEq, Repr

def Entry.getAva (e : Entry) (a : String) : Option (List Value) :=
  (e.attrs.find? (fun p => p.fst == a)).map Prod.snd

def Entry.attributeValuePres (e : Entry) (a : String) (v : Value) : Bool :=
  match e.getAva a with
  | some vs => vs.contains v
  | none => false

/-- Replace (or insert at the end) the value list of attribute `a`. -/
def setAvaList (attrs : List (String × List Value)) (a : String) (vs : List Value) :
    List (String × List Value) :=
  match attrs with
  | [] => [(a, vs)]
  | (b, ws) :: rest =>
    if b == a then (a, vs) :: rest else (b, ws) :: setAvaList rest a vs

def Entry.setAva (e : Entry) (a : String) (vs : List Value) : Entry :=
  { e with attrs := setAvaList e.attrs a vs }

/-- Modelled from the spec: adding a value to a multi-valued attribute
(`Modify::Present` application; entry.rs is not among the analysed sources). -/
def Entry.addAva (e : Entry) (a : String) (v : Value) : Entry :=
  match e.getAva a with
  | some vs => if vs.contains v then e else e.setAva a (vs ++ [v])
  | none => e.setAva a [v]

/-- Modelled from the spec: removing one value from an attribute
(`Modify::Removed` application). -/
def Entry.removeAva (e : Entry) (a : String) (v : Value) : Entry :=
  match e.getAva a with
  | some vs => e.setAva a (vs.filter (fun w => w ≠ v))
  | none => e

/-- Modelled from the spec: purging an attribute (`Modify::Purged`). -/
def Entry.purgeAva (e : Entry) (a : String) : Entry :=
  { e with attrs := e.attrs.filter (fun p => p.fst ≠ a) }

/-- A single modification, as in `modify.rs` (not among the analysed
sources; constructors follow the usage in server.rs 1250-1283). -/
inductive Modify where
  | present (attr : String) (v : Value)
  | removed (attr : String) (v : Value)
  | purged (attr : String)
deriving DecidableEq, Repr

/-- Application of a single modification to an entry. -/
def Entry.applyMod (e : Entry) (m : Modify) : Entry :=
  match m with
  | .present a v => e.addAva a v
  | .removed a v => e.removeAva a v
  | .purged a => e.purgeAva a

/-- Modelled from the spec: `apply_modlist` applies each modification in
order (server.rs 1384-1386 applies the event modlist to each candidate). -/
def Entry.applyModlist (e : Entry) (ml : List Modify) : Entry :=
  ml.foldl Entry.applyMod e

/-- Invalidation of a committed entry for writing: server.rs 1050-1054 and
1379-1382 clone each candidate with the transaction change id.  Modelled
from the spec: invalidation stamps `last_modified_cid` with the write
transaction's CID (spec section 3, lifecycle). -/
def Entry.invalidate (e : Entry) (c : Cid) : Entry := { e with lastModCid := c }

/-- Modelled from the spec: `to_recycled` sets `class += recycled`
(spec section 3: delete on a Live entry does not remove it); used at
server.rs 1078. -/
def Entry.toRecycled (e : Entry) : Entry := e.addAva "class" (.s "recycled")

/-- Modelled from the spec: `to_tombstone` strips all avas except uuid and
sets `class = {tombstone, object}` with the given change id (spec
section 4.6); used at server.rs 1209.  The uuid is a structural field here
and is preserved. -/
def Entry.toTombstone (e : Entry) (c : Cid) : Entry :=
  { id := e.id, uuid := e.uuid,
    attrs := [("class", [Value.s "tombstone", Value.s "object"])],
    lastModCid := c }

def isRecycled (e : Entry) : Bool := e.attributeValuePres "class" (.s "recycled")

def isTombstone (e : Entry) : Bool := e.attributeValuePres "class" (.s "tombstone")

/-- Modelled from the spec: the schema subsystem (schema.rs is not among
the analysed sources) is used by the write path only through entry
validation and through the consistency result of `schema.validate`
consulted at commit (server.rs 2087). -/
structure Schema where
  entryOk : Entry → Bool
  consistent : Bool

/-- Validation and sealing, `validate(...).map(|e| e.seal())`, as used on write candidates
(server.rs 1075-1083, 1206-1215, 1409-1412): a check against the schema
that returns the entry unchanged on success. -/
def validateSeal (s : Schema) (e : Entry) : Except OperationError Entry :=
  if s.entryOk e then .ok e else .error .schemaViolation

/-- Modelled from the spec: compiled access-control rule sets; their
contents are opaque to the claims below, only snapshot identity matters
(access.rs is not among the analysed sources). -/
structure AcpSnapshot where
  version : Nat
deriving DecidableEq, Repr

/-- Origin of an event (event.rs is not among the analysed sources;
server.rs 1345-1364 branches on `EventOrigin::Internal`). -/
inductive EventOrigin where
  | internal
  | user
deriving DecidableEq, Repr

/-- Modelled from the spec: an event carries its origin and the
access-control decisions of the ACP evaluator (spec section 4.4):
`allowedEntry` is the per-entry search visibility and `allowOp` the
create/modify/delete allow gate.  Internal events bypass ACP. -/
structure Event where
  origin : EventOrigin
  allowedEntry : Entry → Bool
  allowOp : Bool

/-- The fully-privileged internal event (server.rs `*_internal`
constructors: no access control checks). -/
def internalEvent : Event :=
  { origin := .internal, allowedEntry := fun _ => true, allowOp := true }

/-- Index types declared per attribute (spec section 3). -/
inductive IndexType where
  | equality
  | presence
  | substring
deriving DecidableEq, Repr

/-- Key of the posting-list cache (idl_arc_sqlite.rs 20-25). -/
structure IdlCacheKey where
  a : String
  i : IndexType
  k : String
deriving DecidableEq, Repr

/-- The committed, externally observable snapshot of the server: durable
storage plus the committed contents of the entry and posting-list caches
(idl_arc_sqlite.rs 44-48), and the shared schema / access-control
snapshots swapped in at commit (server.rs 761-768). -/
structure ServerState where
  db : List Entry
  entryCache : List (EntryId × Entry)
  idlCache : List (IdlCacheKey × List EntryId)
  schema : Schema
  acp : AcpSnapshot

/-- A `QueryServerWriteTransaction` (server.rs 727-739): exclusive working
copies of storage, caches, schema and access controls, the transaction
CID, and the reload flags set by the write operations. -/
structure WriteTxn where
  cid : Cid
  store : List Entry
  entryCache : List (EntryId × Entry)
  idlCache : List (IdlCacheKey × List EntryId)
  schema : Schema
  acp : AcpSnapshot
  changedSchema : Bool
  changedAcp : Bool

/-- Transcribes `QueryServer::write` (server.rs 797-820): open a write transaction over
the committed snapshot with fresh reload flags and the given CID. -/
def beginWrite (st : ServerState) (cid : Cid) : WriteTxn :=
  { cid := cid, store := st.db, entryCache := st.entryCache,
    idlCache := st.idlCache, schema := st.schema, acp := st.acp,
    changedSchema := false, changedAcp := false }

/-- Write-through insertion into the entry cache, as in
`IdlArcSqliteWriteTransaction::write_identries` (idl_arc_sqlite.rs 307-323). -/
def cacheInsert (c : List (EntryId × Entry)) (e : Entry) : List (EntryId × Entry) :=
  (e.id, e) :: c.filter (fun p => p.fst ≠ e.id)

/-- Cache removal, as in `delete_identry` (idl_arc_sqlite.rs 339-351). -/
def cacheRemove (c : List (EntryId × Entry)) (i : EntryId) : List (EntryId × Entry) :=
  c.filter (fun p => p.fst ≠ i)

/-- Modelled from the spec: `Backend::modify(pre, post)` replaces each pre
entry's id2entry row by the corresponding post entry (spec section 4.1;
be/mod.rs is not among the analysed sources).  Rows are matched by id. -/
def beModifyStore (store : List Entry) (pre post : List Entry) : List Entry :=
  store.map (fun e =>
    match (pre.zip post).find? (fun pp => pp.fst.id == e.id) with
    | some pp => pp.snd
    | none => e)

/-- Backend modify inside a write transaction: replace the rows and write
the post entries through the entry cache (idl_arc_sqlite.rs 307-323; the
index-delta maintenance of be/mod.rs is not among the analysed sources and
no claim below inspects posting-list contents). -/
def beModifyTxn (txn : WriteTxn) (pre post : List Entry) : WriteTxn :=
  { txn with store := beModifyStore txn.store pre post,
             entryCache := post.foldl cacheInsert txn.entryCache }

/-- Modelled from the spec: `Backend::delete` removes the id2entry rows of
the given entries (spec section 4.1), removing them from the entry cache as
in `delete_identry` (idl_arc_sqlite.rs 339-351). -/
def beDeleteTxn (txn : WriteTxn) (victims : List Entry) : WriteTxn :=
  { txn with
      store := txn.store.filter (fun e => !(victims.any (fun v => v.id == e.id))),
      entryCache := victims.foldl (fun c v => cacheRemove c v.id) txn.entryCache }

/-- Modelled from the spec: the `filter!` wrapper hides recycled and
tombstoned entries from ordinary searches ("DO NOT SEARCH TOMBSTONES AND
RECYCLE", server.rs 195; spec section 8 item 6).  filter.rs is not among
the analysed sources. -/
def liveOnly (f : Entry → Bool) : Entry → Bool :=
  fun e => f e && !isRecycled e && !isTombstone e

/-- Backend search of the transaction store by a resolved candidate
predicate (the filter resolver itself is out of scope of the claims). -/
def searchStore (txn : WriteTxn) (f : Entry → Bool) : List Entry :=
  txn.store.filter f

/-- The candidate predicate of an impersonated search: the event's filter
restricted by ACP search visibility; internal events bypass ACP
(`search_filter_entries` of the access module, modelled from the spec,
section 4.4). -/
def evSel (f : Entry → Bool) (ev : Event) : Entry → Bool :=
  fun e => f e && (ev.origin == .internal || ev.allowedEntry e)

/-- An impersonated search (`impersonate_search_valid`, server.rs 350-362):
filter the store by the event's candidate predicate. -/
def impersonateSearch (txn : WriteTxn) (f : Entry → Bool) (ev : Event) : List Entry :=
  txn.store.filter (evSel f ev)

/-- The `*_allow_operation` gate of the access module.  Modelled from the
spec: internal events bypass ACP; otherwise the event's ACP decision. -/
def gateOk (ev : Event) : Bool := ev.origin == .internal || ev.allowOp

/-- The `Result<Vec<_>, _>` collection pattern used on candidate lists
(server.rs 1075-1083, 1206-1215, 1409-1412): first error aborts. -/
def collectExcept (f : Entry → Except OperationError Entry) :
    List Entry → Except OperationError (List Entry)
  | [] => .ok []
  | e :: rest => do
    let e' ← f e
    let rest' ← collectExcept f rest
    pure (e' :: rest')

/-- Reload-flag scan for schema-bearing classes (server.rs 1115-1122):
fold over the written candidates checking for classtype / attributetype. -/
def changedSchemaFlag (l : List Entry) : Bool :=
  l.foldl (fun acc e =>
    if acc then acc
    else e.attributeValuePres "class" (.s "classtype")
      || e.attributeValuePres "class" (.s "attributetype")) false

/-- Reload-flag scan for access-control profiles (server.rs 1123-1129). -/
def changedAcpFlag (l : List Entry) : Bool :=
  l.foldl (fun acc e =>
    if acc then acc
    else e.attributeValuePres "class" (.s "access_control_profile")) false

/-- A delete event: the resolved candidate filter and the requesting event
(event.rs is not among the analysed sources). -/
structure DeleteEvent where
  filter : Entry → Bool
  event : Event

/-- Transcribes `QueryServerWriteTransaction::delete` (server.rs 1012-1140):
impersonated search for pre-candidates, ACP delete gate, failure on an
empty candidate set, invalidation with the transaction CID, recycling,
schema validation, backend modify, and reload-flag updates.  The pre- and
post-delete plugin hooks (plugins.rs, not among the analysed sources) are
modelled from the spec as succeeding without candidate transformation. -/
def deleteOp (de : DeleteEvent) (txn : WriteTxn) : Except OperationError WriteTxn :=
  let preCandidates := impersonateSearch txn de.filter de.event
  if !(gateOk de.event) then .error .accessDenied
  else if preCandidates.isEmpty then .error .noMatchingEntries
  else do
    let candidates := preCandidates.map (fun e => e.invalidate txn.cid)
    let delCand ← collectExcept (fun e => validateSeal txn.schema e.toRecycled) candidates
    let txn1 := beModifyTxn txn preCandidates delCand
    pure { txn1 with changedSchema := changedSchemaFlag delCand,
                     changedAcp := changedAcpFlag delCand }

/-- A modify event: resolved candidate filter, modification list, event. -/
structure ModifyEvent where
  filter : Entry → Bool
  modlist : List Modify
  event : Event

/-- Transcribes `QueryServerWriteTransaction::modify` (server.rs 1312-1487): empty
modlists are rejected first; an empty candidate set is a no-op success for
internal events and `NoMatchingEntries` otherwise; then the ACP modify
gate, modlist application on invalidated candidates, schema validation,
backend modify and reload-flag updates (flags scan post then pre
candidates, server.rs 1455-1476).  Plugin hooks are modelled from the
spec as succeeding without candidate transformation. -/
def modifyOp (me : ModifyEvent) (txn : WriteTxn) : Except OperationError WriteTxn :=
  if me.modlist.isEmpty then .error .emptyRequest
  else
    let preCandidates := impersonateSearch txn me.filter me.event
    if preCandidates.isEmpty then
      match me.event.origin with
      | .internal => .ok txn
      | .user => .error .noMatchingEntries
    else if !(gateOk me.event) then .error .accessDenied
    else do
      let candidates :=
        preCandidates.map (fun e => (e.invalidate txn.cid).applyModlist me.modlist)
      let normCand ← collectExcept (validateSeal txn.schema) candidates
      let txn1 := beModifyTxn txn preCandidates normCand
      pure { txn1 with
               changedSchema := changedSchemaFlag (normCand ++ preCandidates),
               changedAcp := changedAcpFlag (normCand ++ preCandidates) }

/-- Transcribes `internal_modify` (server.rs 1522-1539): a modify under the internal
event.  The filter and modlist schema validation steps are modelled as
succeeding (the internal call sites use known system attributes). -/
def internalModify (txn : WriteTxn) (f : Entry → Bool) (ml : List Modify) :
    Except OperationError WriteTxn :=
  modifyOp { filter := f, modlist := ml, event := internalEvent } txn

/-- Transcribes `purge_tombstones` (server.rs 1142-1182): internal search (under
`filter_all!`, so recycled and tombstoned entries are visible) for
tombstones older than the changelog horizon; success as a no-op when none
match; otherwise a direct backend delete.  No ACP gate and no plugin hook
appears in this function. -/
def purgeTombstones (changelogMaxAge : Nat) (txn : WriteTxn) :
    Except OperationError WriteTxn := do
  let horizon ← txn.cid.subSecs changelogMaxAge
  let ts := searchStore txn (fun e => isTombstone e && Cid.ltCid e.lastModCid horizon)
  if ts.isEmpty then .ok txn
  else .ok (beDeleteTxn txn ts)

/-- Transcribes `purge_recycled` (server.rs 1184-1234): internal search (under
`filter_all!`) for recycled entries older than the recycle-bin horizon;
success as a no-op when none match; otherwise each is turned into a
tombstone carrying the transaction CID, schema validated, and persisted by
a direct backend modify.  No ACP gate and no plugin hook appears in this
function. -/
def purgeRecycled (recycleBinMaxAge : Nat) (txn : WriteTxn) :
    Except OperationError WriteTxn := do
  let horizon ← txn.cid.subSecs recycleBinMaxAge
  let rc := searchStore txn (fun e => isRecycled e && Cid.ltCid e.lastModCid horizon)
  if rc.isEmpty then .ok txn
  else do
    let tombstoneCand ←
      collectExcept (fun e => validateSeal txn.schema (e.toTombstone txn.cid)) rc
    pure (beModifyTxn txn rc tombstoneCand)

/-- A revive event: the resolved candidate filter and the requesting event. -/
structure ReviveRecycledEvent where
  filter : Entry → Bool
  event : Event

/-- The modlist of a revive: remove `class = recycled` (server.rs 1250-1253). -/
def reviveModlist : List Modify := [.removed "class" (.s "recycled")]

/-- One step of the direct-membership accumulation of `revive_recycled`
(server.rs 1273-1287): for a reference value naming group `g`, push
`Present("member", ref u)` onto that group's modlist, inserting the group
if absent.  Non-reference values are skipped
(`get_ava_reference_uuid` yields only reference uuids). -/
def dmInnerStep (u : Uuid) (acc : List (Uuid × List Modify)) (v : Value) :
    List (Uuid × List Modify) :=
  match v with
  | .ref g =>
    let m := Modify.present "member" (.ref u)
    match acc.find? (fun p => p.fst == g) with
    | some _ => acc.map (fun p => if p.fst == g then (p.fst, p.snd ++ [m]) else p)
    | none => acc ++ [(g, [m])]
  | .s _ => acc

/-- Accumulate the direct-membership modlists contributed by one revive
candidate (server.rs 1269-1288): each group uuid in the candidate's
`directmemberof` receives a `Present("member", ref(candidate uuid))`. -/
def dmOuterStep (acc : List (Uuid × List Modify)) (e : Entry) :
    List (Uuid × List Modify) :=
  match e.getAva "directmemberof" with
  | none => acc
  | some gs => gs.foldl (dmInnerStep e.uuid) acc

/-- The per-group direct-membership modlists computed by `revive_recycled`
(server.rs 1267-1288).  The BTreeMap is modelled as an association list in
insertion order; each group occurs at most once. -/
def dmModsFor (cands : List Entry) : List (Uuid × List Modify) :=
  cands.foldl dmOuterStep []

/-- One group-membership restoration of `revive_recycled`
(server.rs 1300-1308): an `internal_modify` on `uuid = group` (under
`filter_all!`, so recycled targets are matched too) applying that group's
membership modlist. -/
def revStep (t : WriteTxn) (gm : Uuid × List Modify) :
    Except OperationError WriteTxn :=
  internalModify t (fun e => e.uuid == gm.fst) gm.snd

/-- Transcribes `revive_recycled` (server.rs 1237-1310): search the revive candidates,
collect the direct-membership modlists from their `directmemberof`, apply
the impersonated modify removing `class = recycled` under the revive
filter, and if and only if that succeeds apply each group's membership
modlist, stopping at the first error.  The revive modlist's schema
validation is modelled as succeeding. -/
def reviveRecycled (re : ReviveRecycledEvent) (txn : WriteTxn) :
    Except OperationError WriteTxn := do
  let reviveCands := impersonateSearch txn re.filter re.event
  let txn1 ← modifyOp { filter := re.filter, modlist := reviveModlist, event := re.event } txn
  (dmModsFor reviveCands).foldlM revStep txn1

/-- Commit events in emission order (schema / ACP swaps at server.rs
2092-2094; db, idl cache, entry cache inside the backend commit at
idl_arc_sqlite.rs 286-299). -/
inductive CommitEv where
  | schemaCommit
  | acpCommit
  | dbCommit
  | idlCacheCommit
  | entryCacheCommit
deriving DecidableEq, Repr

/-- Transcribes `IdlArcSqliteWriteTransaction::commit`
(idl_arc_sqlite.rs 286-299): the sqlite transaction commits first, then
the idl cache, then the entry cache. -/
def beCommitEvents : List CommitEv := [.dbCommit, .idlCacheCommit, .entryCacheCommit]

/-- The conditional schema reload of commit (server.rs 2065-2067).  The
reload computation lives in the schema subsystem, not among the analysed
sources, and is a parameter. -/
def qsCommitReloadSchema (reloadSchema : List Entry → Except OperationError Schema)
    (txn : WriteTxn) : Except OperationError WriteTxn :=
  if txn.changedSchema then
    (reloadSchema txn.store).map (fun s => { txn with schema := s })
  else .ok txn

/-- The conditional ACP reload of commit (server.rs 2072-2074). -/
def qsCommitReloadAcp (reloadAcp : List Entry → Except OperationError AcpSnapshot)
    (txn : WriteTxn) : Except OperationError WriteTxn :=
  if txn.changedSchema || txn.changedAcp then
    (reloadAcp txn.store).map (fun a => { txn with acp := a })
  else .ok txn

/-- The final commit step (server.rs 2087-2097): validate the schema, then
swap schema, access controls and the backend state in that order. -/
def qsCommitFinal (txn : WriteTxn) :
    Except OperationError (ServerState × List CommitEv) :=
  if txn.schema.consistent then
    .ok ({ db := txn.store, entryCache := txn.entryCache, idlCache := txn.idlCache,
           schema := txn.schema, acp := txn.acp },
         [CommitEv.schemaCommit, CommitEv.acpCommit] ++ beCommitEvents)
  else .error .consistencyError

/-- Transcribes `QueryServerWriteTransaction::commit` (server.rs 2060-2099): reload
schema when flagged (failure aborts), reload access controls when either
flag is set (failure aborts), validate the schema (a non-empty result
aborts with `ConsistencyError`), and only then swap schema, access
controls and the backend state in that order.  The swap commits of the
concread caches are modelled from the spec as infallible atomic swaps
(spec section 5).  The emitted trace records the commit order. -/
def qsCommit (reloadSchema : List Entry → Except OperationError Schema)
    (reloadAcp : List Entry → Except OperationError AcpSnapshot)
    (txn : WriteTxn) : Except OperationError (ServerState × List CommitEv) := do
  let txn1 ← qsCommitReloadSchema reloadSchema txn
  let txn2 ← qsCommitReloadAcp reloadAcp txn1
  qsCommitFinal txn2

/-- Run one write transaction end to end: open it on the committed
snapshot, run the operation, and commit.  Any error return leaves the
committed snapshot untouched (the transaction values are dropped,
which aborts them: server.rs 1097-1101 and the early returns of every
write operation). -/
def runWriteOp (reloadSchema : List Entry → Except OperationError Schema)
    (reloadAcp : List Entry → Except OperationError AcpSnapshot)
    (st : ServerState) (cid : Cid)
    (op : WriteTxn → Except OperationError WriteTxn) :
    ServerState × Except OperationError (List CommitEv) :=
  match (op (beginWrite st cid)).bind (qsCommit reloadSchema reloadAcp) with
  | .ok p => (p.fst, .ok p.snd)
  | .error e => (st, .error e)

/-- The live entries matching `f_eq("name", name)` under the `filter!`
wrapper, as searched by `name_to_uuid` (server.rs 196-199). -/
def liveNameMatches (store : List Entry) (name : String) : List Entry :=
  store.filter (liveOnly (fun e => e.attributeValuePres "name" (.s name)))

/-- The live entries matching `f_eq("uuid", u)` under the `filter!`
wrapper, as searched by `uuid_to_name` (server.rs 230-237). -/
def liveUuidMatches (store : List Entry) (u : Uuid) : List Entry :=
  store.filter (liveOnly (fun e => e.uuid == u))

/-- Transcribes `name_to_uuid` (server.rs 189-222): internal live search on the name;
zero matches is `NoMatchingEntries`, two or more is `InvalidDBState`,
otherwise the single entry's uuid. -/
def nameToUuid (store : List Entry) (name : String) : Except OperationError Uuid :=
  let res := liveNameMatches store name
  if res.isEmpty then .error .noMatchingEntries
  else if 2 ≤ res.length then .error .invalidDBState
  else
    match res.head? with
    | some e => .ok e.uuid
    | none => .error .noMatchingEntries

/-- Transcribes `uuid_to_name` (server.rs 224-272): internal live search on the uuid;
zero matches is `Ok(None)`, two or more is `InvalidDBState`; a single
entry without a name attribute is `Ok(None)`, with an empty name value
set `InvalidEntryState`, otherwise the first name value. -/
def uuidToName (store : List Entry) (u : Uuid) :
    Except OperationError (Option Value) :=
  let res := liveUuidMatches store u
  if res.isEmpty then .ok none
  else if 2 ≤ res.length then .error .invalidDBState
  else
    match res.head? with
    | none => .error .noMatchingEntries
    | some e =>
      match e.getAva "name" with
      | some vs =>
        match vs.head? with
        | some v => .ok (some v)
        | none => .error .invalidEntryState
      | none => .ok none

/-- Acquisition / commit components at the query-server level. -/
inductive Component where
  | schemaComp
  | acpComp
  | backendComp
deriving DecidableEq, Repr

/-- Transcribes `QueryServer::write` (server.rs 797-820): the schema write
transaction is taken first (line 799), then the backend write transaction
(line 814), then the access-controls write transaction (line 816). -/
def qsAcquireOrder : List Component := [.schemaComp, .backendComp, .acpComp]

/-- Transcribes `QueryServerWriteTransaction::commit` (server.rs
2092-2094): schema.commit, then accesscontrols.commit, then be_txn.commit. -/
def qsCommitOrder : List Component := [.schemaComp, .acpComp, .backendComp]

/-- Cache-layer components of the backend store. -/
inductive CacheComp where
  | entryCacheC
  | idlCacheC
  | dbC
deriving DecidableEq, Repr

/-- Transcribes `IdlArcSqlite::write` (idl_arc_sqlite.rs 473-483): entry
cache first, then idl cache, then the sqlite write transaction. -/
def beAcquireOrder : List CacheComp := [.entryCacheC, .idlCacheC, .dbC]

/-- Transcribes `IdlArcSqliteWriteTransaction::commit`
(idl_arc_sqlite.rs 286-299): db, then idl cache, then entry cache. -/
def beCommitOrder : List CacheComp := [.dbC, .idlCacheC, .entryCacheC]

/-- Pipeline stages appearing in the write operations of server.rs. -/
inductive Stage where
  | acpCheck
  | prePlugins
  | schemaValidateStage
  | backendWrite
  | postPlugins
  | internalSearchStage
deriving DecidableEq, Repr

/-- Stage sequence of `QueryServerWriteTransaction::delete`
(server.rs 1012-1140): impersonated search with ACP, the delete allow
gate, pre-delete plugins, schema validation, backend modify, post-delete
plugins. -/
def deleteStages : List Stage :=
  [.acpCheck, .prePlugins, .schemaValidateStage, .backendWrite, .postPlugins]

/-- Stage sequence of `QueryServerWriteTransaction::modify`
(server.rs 1312-1487). -/
def modifyStages : List Stage :=
  [.acpCheck, .prePlugins, .schemaValidateStage, .backendWrite, .postPlugins]

/-- Stage sequence of `purge_tombstones` (server.rs 1142-1182): an
internal search followed by a direct backend delete; no ACP gate, no
plugin hook. -/
def purgeTombstonesStages : List Stage := [.internalSearchStage, .backendWrite]

/-- Stage sequence of `purge_recycled` (server.rs 1184-1234): an internal
search, schema validation of the tombstone candidates, and a direct
backend modify; no ACP gate, no plugin hook. -/
def purgeRecycledStages : List Stage :=
  [.internalSearchStage, .schemaValidateStage, .backendWrite]

/-- Does a stage belong to the ACP / plugin portion of the pipeline? -/
def acpOrPlugin : Stage → Bool
  | .acpCheck => true
  | .prePlugins => true
  | .postPlugins => true
  | _ => false

/-- The purge operations dispatched by the interval timer. -/
inductive PurgeOp where
  | purgeRecycledOp
  | purgeTombstonesOp
deriving DecidableEq, Repr

/-- Transcribes `IntervalActor::started` (interval.rs 34-42): two timers,
each firing every PURGE_FREQUENCY seconds, one dispatching
`purge_recycled` and one `purge_tombstones` to the write server.
The frequency constant lives in constants.rs, not among the analysed
sources, and is a parameter. -/
def intervalDispatch (purgeFrequency : Nat) : List (Nat × PurgeOp) :=
  [(purgeFrequency, .purgeRecycledOp), (purgeFrequency, .purgeTombstonesOp)]

/-- The id2entry key invariant: ids identify entries (spec section 6,
`id2entry(id INTEGER PK, ...)`). -/
def idUnique (l : List Entry) : Prop :=
  ∀ a ∈ l, ∀ b ∈ l, a.id = b.id → a = b

/-- A modlist consisting solely of `Present("member", _)` modifications,
the shape of every direct-membership modlist built by `revive_recycled`. -/
def memberOnly (ml : List Modify) : Prop :=
  ∀ m ∈ ml, ∃ v, m = Modify.present "member" v

/-- Membership of a modification in the accumulated per-group modlists. -/
def containsDM (acc : List (Uuid × List Modify)) (g : Uuid) (m : Modify) : Prop :=
  ∃ p ∈ acc, p.fst = g ∧ m ∈ p.snd

/-- No entry stored under the given id carries `class = recycled`. -/
def noRecAt (i : EntryId) (l : List Entry) : Prop :=
  ∀ e ∈ l, e.id = i → e.attributeValuePres "class" (.s "recycled") = false

/-- Every entry stored under the given uuid carries the given member value. -/
def memAt (g : Uuid) (v : Value) (l : List Entry) : Prop :=
  ∀ e ∈ l, e.uuid = g → e.attributeValuePres "member" v = true

/-- A schema accepting every entry, for concrete witness states. -/
def schemaAll : Schema := { entryOk := fun _ => true, consistent := true }

/-- A reload function returning the all-accepting schema. -/
def reloadSchemaOk : List Entry → Except OperationError Schema :=
  fun _ => .ok schemaAll

/-- A reload function returning a fixed ACP snapshot. -/
def reloadAcpOk : List Entry → Except OperationError AcpSnapshot :=
  fun _ => .ok ⟨1⟩

/-- Witness fixture: a live person entry. -/
def entPerson : Entry :=
  { id := 1, uuid := 11,
    attrs := [("class", [.s "object", .s "person"]), ("name", [.s "testperson"])],
    lastModCid := ⟨100⟩ }

/-- Witness fixture: a recycled user with a direct membership in group 31. -/
def entRecycledUser : Entry :=
  { id := 2, uuid := 21,
    attrs := [("class", [.s "object", .s "person", .s "recycled"]),
              ("name", [.s "u1"]),
              ("directmemberof", [.ref 31])],
    lastModCid := ⟨100⟩ }

/-- Witness fixture: a live group entry. -/
def entGroup : Entry :=
  { id := 3, uuid := 31,
    attrs := [("class", [.s "object", .s "group"]), ("name", [.s "g1"]),
              ("member", [])],
    lastModCid := ⟨100⟩ }

/-- Witness fixture: an old recycled entry, past the recycle-bin horizon. -/
def entRecycledOld : Entry :=
  { id := 4, uuid := 41,
    attrs := [("class", [.s "object", .s "recycled"])],
    lastModCid := ⟨10⟩ }

/-- Witness fixture: an old tombstone, past the changelog horizon. -/
def entTombstoneOld : Entry :=
  { id := 5, uuid := 51,
    attrs := [("class", [.s "tombstone", .s "object"])],
    lastModCid := ⟨5⟩ }

/-- Witness fixture store. -/
def demoStore : List Entry :=
  [entPerson, entRecycledUser, entGroup, entRecycledOld, entTombstoneOld]

/-- Witness fixture transaction at time 1000. -/
def demoTxn : WriteTxn :=
  { cid := ⟨1000⟩, store := demoStore, entryCache := [], idlCache := [],
    schema := schemaAll, acp := ⟨0⟩, changedSchema := false, changedAcp := false }

/-- Witness fixture committed snapshot. -/
def demoState : ServerState :=
  { db := demoStore, entryCache := [], idlCache := [],
    schema := schemaAll, acp := ⟨0⟩ }

/-- Witness fixture: an internal delete of the person entry. -/
def demoDeleteEvent : DeleteEvent :=
  { filter := fun e => e.id == 1, event := internalEvent }

/-- The transaction state after the witness delete (total by construction). -/
def demoDeleted : WriteTxn :=
  match deleteOp demoDeleteEvent demoTxn with
  | .ok t => t
  | .error _ => demoTxn

/-- Witness fixture: an internal revive of the recycled user. -/
def demoReviveEvent : ReviveRecycledEvent :=
  { filter := fun e => e.id == 2, event := internalEvent }

/-- The transaction state after the witness revive. -/
def demoRevived : WriteTxn :=
  match reviveRecycled demoReviveEvent demoTxn with
  | .ok t => t
  | .error _ => demoTxn

/-- The transaction state after a witness recycle-bin purge with a
five-hundred-second horizon. -/
def demoPurgedRecycled : WriteTxn :=
  match purgeRecycled 500 demoTxn with
  | .ok t => t
  | .error _ => demoTxn

/-- Witness fixture: two live entries sharing a uuid, plus one live entry
without a name attribute. -/
def entDupA : Entry :=
  { id := 6, uuid := 77, attrs := [("class", [.s "object"])], lastModCid := ⟨100⟩ }

/-- Second entry of the duplicated-uuid pair. -/
def entDupB : Entry :=
  { id := 7, uuid := 77, attrs := [("class", [.s "object"])], lastModCid := ⟨100⟩ }

/-- A live entry carrying no name attribute. -/
def entNoName : Entry :=
  { id := 8, uuid := 88, attrs := [("class", [.s "object"])], lastModCid := ⟨100⟩ }

/-- Witness fixture store for the name / uuid resolution claims. -/
def demoStoreRes : List Entry := [entPerson, entDupA, entDupB, entNoName]

/-- Witness fixture: an external event passing all ACP decisions. -/
def userEventAllow : Event :=
  { origin := .user, allowedEntry := fun _ => true, allowOp := true }

/-- Witness fixture: an internal modify event with an empty modlist. -/
def emptyModifyEvent : ModifyEvent :=
  { filter := fun _ => true, modlist := [], event := internalEvent }

/-- Witness fixture: a modlist with a single displayname addition. -/
def demoModlist : List Modify := [.present "displayname" (.s "Test Person")]

theorem find?_setAvaList_self (attrs : List (String × List Value)) (a : String)
    (vs : List Value) :
    (setAvaList attrs a vs).find? (fun p => p.fst == a) = some (a, vs) := by
  induction attrs with
  | nil => simp [setAvaList]
  | cons hd tl ih =>
    obtain ⟨b, ws⟩ := hd
    by_cases hb : b = a
    · subst hb
      simp [setAvaList]
    · simp [setAvaList, beq_false_of_ne hb, List.find?, ih]

theorem find?_setAvaList_ne (attrs : List (String × List Value)) (a b : String)
    (vs : List Value) (h : b ≠ a) :
    (setAvaList attrs a vs).find? (fun p => p.fst == b)
      = attrs.find? (fun p => p.fst == b) := by
  induction attrs with
  | nil => simp [setAvaList, beq_false_of_ne (Ne.symm h)]
  | cons hd tl ih =>
    obtain ⟨c, ws⟩ := hd
    by_cases hc : c = a
    · subst hc
      simp [setAvaList, List.find?, beq_false_of_ne (Ne.symm h)]
    · cases hcb : (c == b) <;>
        simp [setAvaList, beq_false_of_ne hc, List.find?, hcb, ih]

theorem getAva_setAva_self (e : Entry) (a : String) (vs : List Value) :
    (e.setAva a vs).getAva a = some vs := by
  simp [Entry.getAva, Entry.setAva, find?_setAvaList_self]

theorem getAva_setAva_ne (e : Entry) (a b : String) (vs : List Value) (h : b ≠ a) :
    (e.setAva a vs).getAva b = e.getAva b := by
  simp [Entry.getAva, Entry.setAva, find?_setAvaList_ne _ _ _ _ h]

theorem getAva_addAva_ne (e : Entry) (a b : String) (v : Value) (h : b ≠ a) :
    (e.addAva a v).getAva b = e.getAva b := by
  unfold Entry.addAva
  cases hg : e.getAva a with
  | none => simp [getAva_setAva_ne e a b [v] h]
  | some vs =>
    by_cases hcv : v ∈ vs
    · simp [hcv]
    · simp [hcv, getAva_setAva_ne e a b (vs ++ [v]) h]

theorem pres_addAva_self (e : Entry) (a : String) (v : Value) :
    (e.addAva a v).attributeValuePres a v = true := by
  unfold Entry.addAva
  cases hg : e.getAva a with
  | none => simp [Entry.attributeValuePres, getAva_setAva_self]
  | some vs =>
    by_cases hcv : v ∈ vs
    · simp [Entry.attributeValuePres, hg, hcv]
    · simp [Entry.attributeValuePres, hcv, getAva_setAva_self]

theorem pres_addAva_mono (e : Entry) (a b : String) (v w : Value)
    (h : e.attributeValuePres a v = true) :
    (e.addAva b w).attributeValuePres a v = true := by
  by_cases hab : a = b
  · subst hab
    unfold Entry.addAva
    cases hg : e.getAva a with
    | none =>
      unfold Entry.attributeValuePres at h
      rw [hg] at h
      cases h
    | some vs =>
      unfold Entry.attributeValuePres at h
      rw [hg] at h
      have hv : v ∈ vs := by simpa using h
      by_cases hcw : w ∈ vs
      · simp [Entry.attributeValuePres, hg, hcw, hv]
      · simp [Entry.attributeValuePres, hcw, getAva_setAva_self]
        exact Or.inl hv
  · unfold Entry.attributeValuePres
    rw [getAva_addAva_ne e b a w hab]
    exact h

theorem pres_removeAva_self (e : Entry) (a : String) (v : Value) :
    (e.removeAva a v).attributeValuePres a v = false := by
  unfold Entry.removeAva
  cases hg : e.getAva a with
  | none => simp [Entry.attributeValuePres, hg]
  | some vs => simp [Entry.attributeValuePres, getAva_setAva_self]

theorem addAva_id (e : Entry) (a : String) (v : Value) : (e.addAva a v).id = e.id := by
  unfold Entry.addAva
  cases hg : e.getAva a with
  | none => rfl
  | some vs =>
    by_cases hcv : v ∈ vs
    · simp [hcv]
    · simp [hcv, Entry.setAva]

theorem addAva_uuid (e : Entry) (a : String) (v : Value) :
    (e.addAva a v).uuid = e.uuid := by
  unfold Entry.addAva
  cases hg : e.getAva a with
  | none => rfl
  | some vs =>
    by_cases hcv : v ∈ vs
    · simp [hcv]
    · simp [hcv, Entry.setAva]

theorem addAva_lastModCid (e : Entry) (a : String) (v : Value) :
    (e.addAva a v).lastModCid = e.lastModCid := by
  unfold Entry.addAva
  cases hg : e.getAva a with
  | none => rfl
  | some vs =>
    by_cases hcv : v ∈ vs
    · simp [hcv]
    · simp [hcv, Entry.setAva]

theorem removeAva_id (e : Entry) (a : String) (v : Value) :
    (e.removeAva a v).id = e.id := by
  unfold Entry.removeAva
  cases hg : e.getAva a with
  | none => rfl
  | some vs => rfl

theorem removeAva_uuid (e : Entry) (a : String) (v : Value) :
    (e.removeAva a v).uuid = e.uuid := by
  unfold Entry.removeAva
  cases hg : e.getAva a with
  | none => rfl
  | some vs => rfl

theorem purgeAva_id (e : Entry) (a : String) : (e.purgeAva a).id = e.id := rfl

theorem purgeAva_uuid (e : Entry) (a : String) : (e.purgeAva a).uuid = e.uuid := rfl

theorem applyMod_id (e : Entry) (m : Modify) : (e.applyMod m).id = e.id := by
  cases m <;> simp [Entry.applyMod, addAva_id, removeAva_id, purgeAva_id]

theorem applyMod_uuid (e : Entry) (m : Modify) : (e.applyMod m).uuid = e.uuid := by
  cases m <;> simp [Entry.applyMod, addAva_uuid, removeAva_uuid, purgeAva_uuid]

theorem applyModlist_id (ml : List Modify) :
    ∀ e : Entry, (e.applyModlist ml).id = e.id := by
  induction ml with
  | nil => intro e; rfl
  | cons m rest ih =>
    intro e
    unfold Entry.applyModlist at ih ⊢
    rw [List.foldl_cons, ih (e.applyMod m), applyMod_id]

theorem applyModlist_uuid (ml : List Modify) :
    ∀ e : Entry, (e.applyModlist ml).uuid = e.uuid := by
  induction ml with
  | nil => intro e; rfl
  | cons m rest ih =>
    intro e
    unfold Entry.applyModlist at ih ⊢
    rw [List.foldl_cons, ih (e.applyMod m), applyMod_uuid]

theorem invalidate_id (e : Entry) (c : Cid) : (e.invalidate c).id = e.id := rfl

theorem invalidate_uuid (e : Entry) (c : Cid) : (e.invalidate c).uuid = e.uuid := rfl

theorem invalidate_getAva (e : Entry) (c : Cid) (a : String) :
    (e.invalidate c).getAva a = e.getAva a := rfl

theorem toRecycled_id (e : Entry) : e.toRecycled.id = e.id := addAva_id e _ _

theorem toRecycled_lastModCid (e : Entry) :
    e.toRecycled.lastModCid = e.lastModCid := addAva_lastModCid e _ _

theorem toRecycled_pres (e : Entry) :
    e.toRecycled.attributeValuePres "class" (.s "recycled") = true :=
  pres_addAva_self e _ _

theorem toTombstone_id (e : Entry) (c : Cid) : (e.toTombstone c).id = e.id := rfl

theorem validateSeal_ok (s : Schema) (e x : Entry) (h : validateSeal s e = .ok x) :
    x = e := by
  unfold validateSeal at h
  by_cases hs : s.entryOk e = true
  · rw [if_pos hs] at h
    cases h
    rfl
  · rw [if_neg hs] at h
    cases h

theorem collectExcept_eq_map (f : Entry → Except OperationError Entry)
    (g : Entry → Entry) (hf : ∀ e x, f e = .ok x → x = g e) :
    ∀ l out, collectExcept f l = .ok out → out = l.map g := by
  intro l
  induction l with
  | nil =>
    intro out h
    unfold collectExcept at h
    cases h
    rfl
  | cons e rest ih =>
    intro out h
    unfold collectExcept at h
    cases hb : f e with
    | error er => rw [hb] at h; cases h
    | ok x =>
      rw [hb] at h
      cases hc : collectExcept f rest with
      | error er => rw [hc] at h; cases h
      | ok ys =>
        rw [hc] at h
        cases h
        rw [List.map_cons, hf e x hb, ih ys hc]

theorem zip_map_self {β : Type} (g : Entry → β) :
    ∀ l : List Entry, l.zip (l.map g) = l.map (fun a => (a, g a)) := by
  intro l
  induction l with
  | nil => rfl
  | cons a t ih => simp [ih]

theorem find?_filter_of_idUnique (store : List Entry) (φ : Entry → Bool)
    (hu : idUnique store) (e : Entry) (he : e ∈ store) :
    (store.filter φ).find? (fun a => a.id == e.id)
      = if φ e then some e else none := by
  by_cases hφ : φ e = true
  · rw [if_pos hφ]
    have hmem : e ∈ store.filter φ := List.mem_filter.mpr ⟨he, hφ⟩
    have hsome : ((store.filter φ).find? (fun a => a.id == e.id)).isSome :=
      List.find?_isSome.mpr ⟨e, hmem, by simp⟩
    rcases Option.isSome_iff_exists.mp hsome with ⟨b, hb⟩
    have hbmem : b ∈ store.filter φ := List.mem_of_find?_eq_some hb
    have hbid : b.id = e.id := by simpa using List.find?_some hb
    have : b = e := hu b (List.mem_of_mem_filter hbmem) e he hbid
    rw [hb, this]
  · rw [if_neg hφ]
    cases hfind : (store.filter φ).find? (fun a => a.id == e.id) with
    | none => rfl
    | some b =>
      have hbmem : b ∈ store.filter φ := List.mem_of_find?_eq_some hfind
      have hbid : b.id = e.id := by simpa using List.find?_some hfind
      have hbe : b = e := hu b (List.mem_of_mem_filter hbmem) e he hbid
      rw [hbe] at hbmem
      exact absurd (List.of_mem_filter hbmem) hφ

theorem beModifyStore_filter_map (store : List Entry) (φ : Entry → Bool)
    (g : Entry → Entry) (hu : idUnique store) :
    beModifyStore store (store.filter φ) ((store.filter φ).map g)
      = store.map (fun e => if φ e then g e else e) := by
  unfold beModifyStore
  apply List.map_eq_map_iff.mpr
  intro e he
  rw [zip_map_self, List.find?_map]
  have hcomp :
      ((fun pp : Entry × Entry => pp.fst.id == e.id) ∘ fun a => (a, g a))
        = fun a => a.id == e.id := rfl
  rw [hcomp, find?_filter_of_idUnique store φ hu e he]
  by_cases hφ : φ e = true
  · simp [hφ]
  · simp [hφ]

theorem map_id_of_filter_nil (store : List Entry) (φ : Entry → Bool)
    (g : Entry → Entry) (hnil : store.filter φ = []) :
    store.map (fun e => if φ e then g e else e) = store := by
  have hall : ∀ e ∈ store, ¬ φ e = true := List.filter_eq_nil_iff.mp hnil
  calc store.map (fun e => if φ e then g e else e)
      = store.map id := by
        apply List.map_eq_map_iff.mpr
        intro e he
        simp [hall e he]
    _ = store := List.map_id store

theorem idUnique_map (store : List Entry) (f : Entry → Entry)
    (hf : ∀ e, (f e).id = e.id) (hu : idUnique store) :
    idUnique (store.map f) := by
  intro a ha b hb hab
  rcases List.mem_map.mp ha with ⟨a0, ha0, rfl⟩
  rcases List.mem_map.mp hb with ⟨b0, hb0, rfl⟩
  rw [hf a0, hf b0] at hab
  rw [hu a0 ha0 b0 hb0 hab]

theorem invalidate_pres (e : Entry) (c : Cid) (a : String) (v : Value) :
    (e.invalidate c).attributeValuePres a v = e.attributeValuePres a v := rfl

theorem getAva_applyModlist_memberOnly (b : String) (hb : b ≠ "member") :
    ∀ ml : List Modify, memberOnly ml →
      ∀ e : Entry, (e.applyModlist ml).getAva b = e.getAva b := by
  intro ml
  induction ml with
  | nil => intro _ e; rfl
  | cons m rest ih =>
    intro hm e
    obtain ⟨v, hv⟩ := hm m (List.mem_cons_self m rest)
    have hrest : memberOnly rest := fun x hx => hm x (List.mem_cons_of_mem m hx)
    unfold Entry.applyModlist at ih ⊢
    rw [List.foldl_cons, ih hrest (e.applyMod m)]
    subst hv
    exact getAva_addAva_ne e "member" b v hb

theorem pres_applyModlist_mono (a : String) (v : Value) :
    ∀ ml : List Modify, memberOnly ml → ∀ e : Entry,
      e.attributeValuePres a v = true →
      (e.applyModlist ml).attributeValuePres a v = true := by
  intro ml
  induction ml with
  | nil => intro _ e h; exact h
  | cons m rest ih =>
    intro hm e h
    obtain ⟨w, hw⟩ := hm m (List.mem_cons_self m rest)
    have hrest : memberOnly rest := fun x hx => hm x (List.mem_cons_of_mem m hx)
    unfold Entry.applyModlist at ih ⊢
    rw [List.foldl_cons]
    apply ih hrest
    subst hw
    exact pres_addAva_mono e a "member" v w h

theorem pres_applyModlist_present (v : Value) :
    ∀ ml : List Modify, memberOnly ml → Modify.present "member" v ∈ ml →
      ∀ e : Entry, (e.applyModlist ml).attributeValuePres "member" v = true := by
  intro ml
  induction ml with
  | nil => intro _ hv; cases hv
  | cons m rest ih =>
    intro hm hv e
    have hrest : memberOnly rest := fun x hx => hm x (List.mem_cons_of_mem m hx)
    unfold Entry.applyModlist at ih ⊢
    rw [List.foldl_cons]
    rcases List.mem_cons.mp hv with h1 | h2
    · have hstep : (e.applyMod m).attributeValuePres "member" v = true := by
        rw [← h1]
        exact pres_addAva_self e "member" v
      have hmono := pres_applyModlist_mono "member" v rest hrest (e.applyMod m) hstep
      unfold Entry.applyModlist at hmono
      exact hmono
    · exact ih hrest h2 (e.applyMod m)

theorem modifyOp_ok_store (me : ModifyEvent) (txn txn' : WriteTxn)
    (hu : idUnique txn.store) (h : modifyOp me txn = .ok txn') :
    txn'.store = txn.store.map (fun e =>
      if evSel me.filter me.event e
      then (e.invalidate txn.cid).applyModlist me.modlist
      else e) := by
  unfold modifyOp at h
  by_cases hml : me.modlist.isEmpty = true
  · rw [if_pos hml] at h
    cases h
  · rw [if_neg hml] at h
    by_cases hpre : (impersonateSearch txn me.filter me.event).isEmpty = true
    · rw [if_pos hpre] at h
      have hnil : txn.store.filter (evSel me.filter me.event) = [] := by
        simpa [impersonateSearch, List.isEmpty_iff] using hpre
      cases ho : me.event.origin with
      | internal =>
        rw [ho] at h
        cases h
        rw [map_id_of_filter_nil _ _ _ hnil]
      | user =>
        rw [ho] at h
        cases h
    · rw [if_neg hpre] at h
      by_cases hgate : gateOk me.event = true
      · rw [hgate] at h
        simp only [Bool.not_true, Bool.false_eq_true, if_false] at h
        cases hc : collectExcept (validateSeal txn.schema)
            ((impersonateSearch txn me.filter me.event).map
              (fun e => (e.invalidate txn.cid).applyModlist me.modlist)) with
        | error er =>
          rw [hc] at h
          cases h
        | ok normCand =>
          rw [hc] at h
          cases h
          have hnorm : normCand
              = ((impersonateSearch txn me.filter me.event).map
                  (fun e => (e.invalidate txn.cid).applyModlist me.modlist)).map id :=
            collectExcept_eq_map (validateSeal txn.schema) id
              (fun e x hx => validateSeal_ok txn.schema e x hx) _ normCand hc
          rw [List.map_id] at hnorm
          show beModifyStore txn.store (impersonateSearch txn me.filter me.event) normCand
              = _
          rw [hnorm]
          exact beModifyStore_filter_map txn.store (evSel me.filter me.event) _ hu
      · have hgf : gateOk me.event = false := by
          cases hgg : gateOk me.event
          · rfl
          · exact absurd hgg hgate
        rw [hgf] at h
        simp only [Bool.not_false, if_true] at h
        cases h

theorem modifyOp_ok_idUnique (me : ModifyEvent) (txn txn' : WriteTxn)
    (hu : idUnique txn.store) (h : modifyOp me txn = .ok txn') :
    idUnique txn'.store := by
  rw [modifyOp_ok_store me txn txn' hu h]
  apply idUnique_map _ _ _ hu
  intro e
  by_cases hsel : evSel me.filter me.event e = true
  · simp only [hsel, if_true]
    rw [applyModlist_id, invalidate_id]
  · simp [hsel]

theorem deleteOp_ok_store (de : DeleteEvent) (txn txn' : WriteTxn)
    (hu : idUnique txn.store) (h : deleteOp de txn = .ok txn') :
    txn'.store = txn.store.map (fun e =>
      if evSel de.filter de.event e then (e.invalidate txn.cid).toRecycled else e) := by
  unfold deleteOp at h
  by_cases hgate : gateOk de.event = true
  · rw [hgate] at h
    simp only [Bool.not_true, Bool.false_eq_true, if_false] at h
    by_cases hpre : (impersonateSearch txn de.filter de.event).isEmpty = true
    · rw [if_pos hpre] at h
      cases h
    · rw [if_neg hpre] at h
      cases hc : collectExcept (fun e => validateSeal txn.schema e.toRecycled)
          ((impersonateSearch txn de.filter de.event).map
            (fun e => e.invalidate txn.cid)) with
      | error er =>
        rw [hc] at h
        cases h
      | ok delCand =>
        rw [hc] at h
        cases h
        have hdel : delCand
            = ((impersonateSearch txn de.filter de.event).map
                (fun e => e.invalidate txn.cid)).map Entry.toRecycled :=
          collectExcept_eq_map _ Entry.toRecycled
            (fun e x hx => by
              have := validateSeal_ok txn.schema e.toRecycled x hx
              exact this) _ delCand hc
        rw [List.map_map] at hdel
        show beModifyStore txn.store (impersonateSearch txn de.filter de.event) delCand
            = _
        rw [hdel]
        exact beModifyStore_filter_map txn.store (evSel de.filter de.event) _ hu
  · have hgf : gateOk de.event = false := by
      cases hgg : gateOk de.event
      · rfl
      · exact absurd hgg hgate
    rw [hgf] at h
    simp only [Bool.not_false, if_true] at h
    cases h

theorem except_bind_ok {α β : Type} (x : Except OperationError α)
    (f : α → Except OperationError β) (b : β) (h : x.bind f = .ok b) :
    ∃ a, x = .ok a ∧ f a = .ok b := by
  cases x with
  | error e => simp [Except.bind] at h
  | ok a => exact ⟨a, rfl, h⟩

theorem qsCommit_trace (rs : List Entry → Except OperationError Schema)
    (ra : List Entry → Except OperationError AcpSnapshot) (txn : WriteTxn)
    (p : ServerState × List CommitEv) (h : qsCommit rs ra txn = .ok p) :
    p.snd = [CommitEv.schemaCommit, CommitEv.acpCommit] ++ beCommitEvents := by
  unfold qsCommit at h
  obtain ⟨t1, h1, hrest⟩ := except_bind_ok _ _ _ h
  obtain ⟨t2, h2, hfin⟩ := except_bind_ok _ _ _ hrest
  unfold qsCommitFinal at hfin
  by_cases hcons : t2.schema.consistent = true
  · rw [if_pos hcons] at hfin
    cases hfin
    rfl
  · rw [if_neg hcons] at hfin
    cases hfin

/-- C1: if any operation inside a write transaction (or the commit itself)
returns an error, the transaction is aborted: the committed snapshot
observable after the failed transaction equals the snapshot before it. -/
theorem c1_error_aborts_write_txn
    (rs : List Entry → Except OperationError Schema)
    (ra : List Entry → Except OperationError AcpSnapshot)
    (st : ServerState) (cid : Cid)
    (op : WriteTxn → Except OperationError WriteTxn) (e : OperationError)
    (h : (runWriteOp rs ra st cid op).snd = .error e) :
    (runWriteOp rs ra st cid op).fst = st := by
  unfold runWriteOp at h ⊢
  cases hx : (op (beginWrite st cid)).bind (qsCommit rs ra) with
  | ok p =>
    rw [hx] at h
    simp at h
  | error e2 =>
    rfl

theorem c1_error_aborts_write_txn_witness :
    (runWriteOp reloadSchemaOk reloadAcpOk demoState ⟨1000⟩
        (modifyOp emptyModifyEvent)).snd = .error .emptyRequest
  ∧ (runWriteOp reloadSchemaOk reloadAcpOk demoState ⟨1000⟩
        (modifyOp emptyModifyEvent)).fst = demoState :=
  ⟨rfl, c1_error_aborts_write_txn reloadSchemaOk reloadAcpOk demoState ⟨1000⟩
      (modifyOp emptyModifyEvent) .emptyRequest rfl⟩

/-- C7: a modify whose modlist contains zero modifications returns
`EmptyRequest`, and the committed state is unchanged, regardless of the
filter or the event origin. -/
theorem c7_empty_modify_rejected
    (rs : List Entry → Except OperationError Schema)
    (ra : List Entry → Except OperationError AcpSnapshot)
    (st : ServerState) (cid : Cid) (txn : WriteTxn)
    (f : Entry → Bool) (ev : Event) :
    modifyOp { filter := f, modlist := [], event := ev } txn
      = .error .emptyRequest
  ∧ (runWriteOp rs ra st cid
        (modifyOp { filter := f, modlist := [], event := ev })).snd
      = .error .emptyRequest
  ∧ (runWriteOp rs ra st cid
        (modifyOp { filter := f, modlist := [], event := ev })).fst = st :=
  ⟨rfl, rfl, rfl⟩

/-- C6: a modify with a non-empty modlist whose filter selects zero
candidates is a no-op success for internal-origin events and fails with
`NoMatchingEntries` for external-origin events. -/
theorem c6_modify_zero_candidates (me : ModifyEvent) (txn : WriteTxn)
    (hml : me.modlist ≠ [])
    (hzero : impersonateSearch txn me.filter me.event = []) :
    (me.event.origin = .internal → modifyOp me txn = .ok txn)
  ∧ (me.event.origin = .user → modifyOp me txn = .error .noMatchingEntries) := by
  have hml' : me.modlist.isEmpty = false := by
    cases hm : me.modlist
    · exact absurd hm hml
    · rfl
  constructor <;> intro ho
  · unfold modifyOp
    simp [hml', hzero, ho]
  · unfold modifyOp
    simp [hml', hzero, ho]

theorem c6_modify_zero_candidates_witness :
    modifyOp { filter := fun _ => false, modlist := demoModlist,
               event := internalEvent } demoTxn = .ok demoTxn
  ∧ modifyOp { filter := fun _ => false, modlist := demoModlist,
               event := userEventAllow } demoTxn
      = .error .noMatchingEntries :=
  ⟨(c6_modify_zero_candidates
      { filter := fun _ => false, modlist := demoModlist, event := internalEvent }
      demoTxn (by simp [demoModlist]) rfl).1 rfl,
   (c6_modify_zero_candidates
      { filter := fun _ => false, modlist := demoModlist, event := userEventAllow }
      demoTxn (by simp [demoModlist]) rfl).2 rfl⟩

/-- C8 counterexample: at the query-server level the commit order
(schema, access controls, backend) is not the reverse of the acquisition
order (schema, backend, access controls), so the claim's final clause
fails on the code. -/
theorem c8_commit_order_counterexample :
    qsCommitOrder ≠ qsAcquireOrder.reverse := by
  decide

/-- C8 (amended): on every successful commit the durable storage commits
strictly before the idl cache, which commits strictly before the entry
cache; schema commits first, then access controls, then the backend.  At
the cache layer the commit order is the exact reverse of the acquisition
order, but at the query-server level it is not. -/
theorem c8_commit_order (rs : List Entry → Except OperationError Schema)
    (ra : List Entry → Except OperationError AcpSnapshot)
    (st : ServerState) (cid : Cid)
    (op : WriteTxn → Except OperationError WriteTxn) (tr : List CommitEv)
    (h : (runWriteOp rs ra st cid op).snd = .ok tr) :
    tr.indexOf CommitEv.schemaCommit < tr.indexOf CommitEv.acpCommit
  ∧ tr.indexOf CommitEv.acpCommit < tr.indexOf CommitEv.dbCommit
  ∧ tr.indexOf CommitEv.dbCommit < tr.indexOf CommitEv.idlCacheCommit
  ∧ tr.indexOf CommitEv.idlCacheCommit < tr.indexOf CommitEv.entryCacheCommit
  ∧ beCommitOrder = beAcquireOrder.reverse
  ∧ qsCommitOrder = [Component.schemaComp, Component.acpComp, Component.backendComp]
  ∧ qsAcquireOrder = [Component.schemaComp, Component.backendComp, Component.acpComp] := by
  have htr : tr = [CommitEv.schemaCommit, CommitEv.acpCommit] ++ beCommitEvents := by
    unfold runWriteOp at h
    cases hx : (op (beginWrite st cid)).bind (qsCommit rs ra) with
    | ok p =>
      rw [hx] at h
      obtain ⟨t, ht, hc⟩ := except_bind_ok _ _ _ hx
      have := qsCommit_trace rs ra t p hc
      simp at h
      rw [← h]
      exact this
    | error e2 =>
      rw [hx] at h
      simp at h
  subst htr
  refine ⟨by decide, by decide, by decide, by decide, by decide, rfl, rfl⟩

theorem c8_commit_order_witness :
    (runWriteOp reloadSchemaOk reloadAcpOk demoState ⟨1000⟩ Except.ok).snd
      = .ok ([CommitEv.schemaCommit, CommitEv.acpCommit] ++ beCommitEvents)
  ∧ ([CommitEv.schemaCommit, CommitEv.acpCommit] ++ beCommitEvents).indexOf
        CommitEv.dbCommit
      < ([CommitEv.schemaCommit, CommitEv.acpCommit] ++ beCommitEvents).indexOf
        CommitEv.idlCacheCommit :=
  ⟨rfl, (c8_commit_order reloadSchemaOk reloadAcpOk demoState ⟨1000⟩ Except.ok
      ([CommitEv.schemaCommit, CommitEv.acpCommit] ++ beCommitEvents) rfl).2.2.1⟩

/-- C9 counterexample: the purge operations do not run the ACP / plugin
stages that the ordinary write pipeline runs, so they do not share that
pipeline. -/
theorem c9_purge_pipeline_counterexample :
    purgeRecycledStages.filter acpOrPlugin ≠ deleteStages.filter acpOrPlugin := by
  decide

/-- C9 (amended): at every PURGE_FREQUENCY interval the timer dispatches
both purge_recycled and purge_tombstones through the write path; unlike
the ordinary write operations, the purge operations run no ACP or plugin
stage, searching internally and writing directly to the backend. -/
theorem c9_purge_dispatch (pf : Nat) :
    intervalDispatch pf = [(pf, PurgeOp.purgeRecycledOp), (pf, PurgeOp.purgeTombstonesOp)]
  ∧ purgeRecycledStages.filter acpOrPlugin = []
  ∧ purgeTombstonesStages.filter acpOrPlugin = []
  ∧ deleteStages.filter acpOrPlugin
      = [Stage.acpCheck, Stage.prePlugins, Stage.postPlugins]
  ∧ modifyStages.filter acpOrPlugin
      = [Stage.acpCheck, Stage.prePlugins, Stage.postPlugins]
  ∧ Stage.backendWrite ∈ purgeRecycledStages
  ∧ Stage.backendWrite ∈ purgeTombstonesStages :=
  ⟨rfl, rfl, rfl, rfl, rfl, by decide, by decide⟩

/-- C10: `name_to_uuid` fails with `NoMatchingEntries` on zero live
matches and `InvalidDBState` on two or more, returning the single match's
uuid otherwise; `uuid_to_name` returns `Ok(None)` on zero live matches and
when the single match has no name attribute, failing with `InvalidDBState`
only on two or more matches. -/
theorem c10_name_uuid_resolution (store : List Entry) (name : String) (u : Uuid) :
    (liveNameMatches store name = [] →
      nameToUuid store name = .error .noMatchingEntries)
  ∧ (2 ≤ (liveNameMatches store name).length →
      nameToUuid store name = .error .invalidDBState)
  ∧ (∀ e, liveNameMatches store name = [e] → nameToUuid store name = .ok e.uuid)
  ∧ (liveUuidMatches store u = [] → uuidToName store u = .ok none)
  ∧ (∀ e, liveUuidMatches store u = [e] → e.getAva "name" = none →
      uuidToName store u = .ok none)
  ∧ (2 ≤ (liveUuidMatches store u).length →
      uuidToName store u = .error .invalidDBState)
  ∧ (∀ e, liveUuidMatches store u = [e] →
      uuidToName store u ≠ .error .invalidDBState) := by
  refine ⟨?_, ?_, ?_, ?_, ?_, ?_, ?_⟩
  · intro h
    simp only [nameToUuid]
    rw [h]
    rfl
  · intro h
    cases hres : liveNameMatches store name with
    | nil => rw [hres] at h; simp at h
    | cons a t =>
      rw [hres] at h
      simp only [nameToUuid]
      rw [hres]
      cases t with
      | nil => simp at h
      | cons b t2 => simp
  · intro e he
    simp only [nameToUuid]
    rw [he]
    rfl
  · intro h
    simp only [uuidToName]
    rw [h]
    rfl
  · intro e he hn
    simp only [uuidToName]
    rw [he]
    simp [hn]
  · intro h
    cases hres : liveUuidMatches store u with
    | nil => rw [hres] at h; simp at h
    | cons a t =>
      rw [hres] at h
      simp only [uuidToName]
      rw [hres]
      cases t with
      | nil => simp at h
      | cons b t2 => simp
  · intro e he
    simp only [uuidToName]
    rw [he]
    cases hn : e.getAva "name" with
    | none => simp [hn]
    | some vs =>
      cases hv : vs.head? with
      | none => simp [hn, hv]
      | some v => simp [hn, hv]

theorem c10_name_uuid_resolution_witness :
    nameToUuid demoStoreRes "nosuch" = .error .noMatchingEntries
  ∧ uuidToName demoStoreRes 99 = .ok none
  ∧ uuidToName demoStoreRes 77 = .error .invalidDBState
  ∧ uuidToName demoStoreRes 88 = .ok none :=
  ⟨(c10_name_uuid_resolution demoStoreRes "nosuch" 0).1 rfl,
   (c10_name_uuid_resolution demoStoreRes "x" 99).2.2.2.1 rfl,
   (c10_name_uuid_resolution demoStoreRes "x" 77).2.2.2.2.2.1 (by decide),
   (c10_name_uuid_resolution demoStoreRes "x" 88).2.2.2.2.1 entNoName rfl rfl⟩

/-- C2: a successful delete removes no entry from the store; every
candidate entry selected by the filter is instead replaced, through a
backend modify, by a copy carrying `class += recycled` and the
transaction's CID as `last_modified_cid`. -/
theorem c2_delete_recycles (de : DeleteEvent) (txn txn' : WriteTxn)
    (hu : idUnique txn.store) (h : deleteOp de txn = .ok txn') :
    txn'.store = beModifyStore txn.store (impersonateSearch txn de.filter de.event)
        ((impersonateSearch txn de.filter de.event).map
          (fun e => (e.invalidate txn.cid).toRecycled))
  ∧ txn'.store.map Entry.id = txn.store.map Entry.id
  ∧ ∀ e ∈ impersonateSearch txn de.filter de.event,
      ∃ e' ∈ txn'.store, e'.id = e.id
        ∧ e'.attributeValuePres "class" (.s "recycled") = true
        ∧ e'.lastModCid = txn.cid := by
  have hst := deleteOp_ok_store de txn txn' hu h
  refine ⟨?_, ?_, ?_⟩
  · rw [hst]
    show _ = beModifyStore txn.store (txn.store.filter (evSel de.filter de.event))
      ((txn.store.filter (evSel de.filter de.event)).map
        (fun e => (e.invalidate txn.cid).toRecycled))
    exact (beModifyStore_filter_map txn.store (evSel de.filter de.event) _ hu).symm
  · rw [hst, List.map_map]
    apply List.map_eq_map_iff.mpr
    intro e he
    by_cases hsel : evSel de.filter de.event e = true
    · simp [Function.comp, hsel, toRecycled_id, invalidate_id]
    · simp [Function.comp, hsel]
  · intro e he
    have hmem : e ∈ txn.store ∧ evSel de.filter de.event e = true :=
      List.mem_filter.mp he
    refine ⟨(e.invalidate txn.cid).toRecycled, ?_, ?_, toRecycled_pres _, ?_⟩
    · rw [hst]
      have hfe : (fun x => if evSel de.filter de.event x
            then (x.invalidate txn.cid).toRecycled else x) e
          = (e.invalidate txn.cid).toRecycled := by
        simp [hmem.2]
      rw [← hfe]
      exact List.mem_map_of_mem _ hmem.1
    · rw [toRecycled_id, invalidate_id]
    · rw [toRecycled_lastModCid]
      rfl

theorem c2_delete_recycles_witness :
    idUnique demoTxn.store
  ∧ deleteOp demoDeleteEvent demoTxn = .ok demoDeleted
  ∧ demoDeleted.store.map Entry.id = demoTxn.store.map Entry.id :=
  ⟨by unfold idUnique; decide, rfl,
   (c2_delete_recycles demoDeleteEvent demoTxn demoDeleted
      (by unfold idUnique; decide) rfl).2.1⟩

theorem purgeTombstones_reduce (maxAge : Nat) (txn : WriteTxn) (c : Cid)
    (hc : txn.cid.subSecs maxAge = .ok c) :
    purgeTombstones maxAge txn
      = (if (searchStore txn
              (fun e => isTombstone e && Cid.ltCid e.lastModCid c)).isEmpty
         then .ok txn
         else .ok (beDeleteTxn txn (searchStore txn
              (fun e => isTombstone e && Cid.ltCid e.lastModCid c)))) := by
  unfold purgeTombstones
  rw [hc]
  rfl

/-- C4: purge_tombstones permanently removes exactly the tombstones older
than the changelog horizon, leaves every other entry untouched, and
succeeds as a no-op when no such entry exists. -/
theorem c4_purge_tombstones (maxAge : Nat) (txn : WriteTxn) (c : Cid)
    (hu : idUnique txn.store) (hc : txn.cid.subSecs maxAge = .ok c) :
    ∃ txn', purgeTombstones maxAge txn = .ok txn'
      ∧ txn'.store = txn.store.filter
          (fun e => !(isTombstone e && Cid.ltCid e.lastModCid c)) := by
  rw [purgeTombstones_reduce maxAge txn c hc]
  by_cases hts : (searchStore txn
      (fun e => isTombstone e && Cid.ltCid e.lastModCid c)).isEmpty = true
  · rw [if_pos hts]
    refine ⟨txn, rfl, ?_⟩
    have hnil : txn.store.filter
        (fun e => isTombstone e && Cid.ltCid e.lastModCid c) = [] := by
      simpa [searchStore, List.isEmpty_iff] using hts
    have hall := List.filter_eq_nil_iff.mp hnil
    symm
    apply List.filter_eq_self.mpr
    intro e he
    simp [hall e he]
  · rw [if_neg hts]
    refine ⟨_, rfl, ?_⟩
    show txn.store.filter _ = _
    apply List.filter_congr
    intro e he
    by_cases hcond : (isTombstone e && Cid.ltCid e.lastModCid c) = true
    · have hmem : e ∈ searchStore txn
          (fun x => isTombstone x && Cid.ltCid x.lastModCid c) :=
        List.mem_filter.mpr ⟨he, hcond⟩
      have hany : (searchStore txn
          (fun x => isTombstone x && Cid.ltCid x.lastModCid c)).any
            (fun v => v.id == e.id) = true :=
        List.any_eq_true.mpr ⟨e, hmem, by simp⟩
      rw [hany, hcond]
    · have hnc : (isTombstone e && Cid.ltCid e.lastModCid c) = false := by
        cases hx : (isTombstone e && Cid.ltCid e.lastModCid c)
        · rfl
        · exact absurd hx hcond
      have hany : (searchStore txn
          (fun x => isTombstone x && Cid.ltCid x.lastModCid c)).any
            (fun v => v.id == e.id) = false := by
        cases hx : (searchStore txn
            (fun x => isTombstone x && Cid.ltCid x.lastModCid c)).any
              (fun v => v.id == e.id)
        · rfl
        · exfalso
          obtain ⟨v, hvmem, hvid⟩ := List.any_eq_true.mp hx
          have hvstore : v ∈ txn.store := List.mem_of_mem_filter hvmem
          have hveq : v = e := hu v hvstore e he (by simpa using hvid)
          rw [hveq] at hvmem
          have hvmem2 : e ∈ txn.store.filter
              (fun x => isTombstone x && Cid.ltCid x.lastModCid c) := hvmem
          exact hcond (List.mem_filter.mp hvmem2).2
      rw [hany, hnc]

theorem c4_purge_tombstones_witness :
    idUnique demoTxn.store
  ∧ Cid.subSecs demoTxn.cid 900 = .ok ⟨100⟩
  ∧ ∃ txn', purgeTombstones 900 demoTxn = .ok txn'
      ∧ txn'.store = demoTxn.store.filter
          (fun e => !(isTombstone e && Cid.ltCid e.lastModCid ⟨100⟩)) :=
  ⟨by unfold idUnique; decide, rfl,
   c4_purge_tombstones 900 demoTxn ⟨100⟩ (by unfold idUnique; decide) rfl⟩

theorem purgeRecycled_reduce (maxAge : Nat) (txn : WriteTxn) (c : Cid)
    (hc : txn.cid.subSecs maxAge = .ok c) :
    purgeRecycled maxAge txn
      = (if (searchStore txn
              (fun e => isRecycled e && Cid.ltCid e.lastModCid c)).isEmpty
         then .ok txn
         else
           (collectExcept (fun e => validateSeal txn.schema (e.toTombstone txn.cid))
              (searchStore txn (fun e => isRecycled e && Cid.ltCid e.lastModCid c))).bind
             (fun tomb => .ok (beModifyTxn txn
                (searchStore txn (fun e => isRecycled e && Cid.ltCid e.lastModCid c))
                tomb))) := by
  unfold purgeRecycled
  rw [hc]
  rfl

/-- C3: a successful purge_recycled turns exactly the recycled entries
older than the recycle-bin horizon into tombstones (all attributes
stripped, class set to tombstone and object, the uuid and id preserved,
the CID set to the transaction's), leaving every other entry unchanged. -/
theorem c3_purge_recycled (maxAge : Nat) (txn txn' : WriteTxn) (c : Cid)
    (hu : idUnique txn.store) (hc : txn.cid.subSecs maxAge = .ok c)
    (h : purgeRecycled maxAge txn = .ok txn') :
    txn'.store = txn.store.map (fun e =>
      if isRecycled e && Cid.ltCid e.lastModCid c
      then e.toTombstone txn.cid else e)
  ∧ ∀ e ∈ txn.store, isRecycled e = true → Cid.ltCid e.lastModCid c = true →
      ∃ e' ∈ txn'.store, e'.id = e.id ∧ e'.uuid = e.uuid
        ∧ e'.attrs = [("class", [Value.s "tombstone", Value.s "object"])]
        ∧ e'.lastModCid = txn.cid := by
  rw [purgeRecycled_reduce maxAge txn c hc] at h
  have hst : txn'.store = txn.store.map (fun e =>
      if isRecycled e && Cid.ltCid e.lastModCid c
      then e.toTombstone txn.cid else e) := by
    by_cases hrc : (searchStore txn
        (fun e => isRecycled e && Cid.ltCid e.lastModCid c)).isEmpty = true
    · rw [if_pos hrc] at h
      cases h
      have hnil : txn.store.filter
          (fun e => isRecycled e && Cid.ltCid e.lastModCid c) = [] := by
        simpa [searchStore, List.isEmpty_iff] using hrc
      exact (map_id_of_filter_nil _ _ _ hnil).symm
    · rw [if_neg hrc] at h
      obtain ⟨tomb, htomb, hok⟩ := except_bind_ok _ _ _ h
      cases hok
      have htm : tomb = (searchStore txn
          (fun e => isRecycled e && Cid.ltCid e.lastModCid c)).map
            (fun e => e.toTombstone txn.cid) :=
        collectExcept_eq_map _ (fun e => e.toTombstone txn.cid)
          (fun e x hx => validateSeal_ok txn.schema (e.toTombstone txn.cid) x hx)
          _ tomb htomb
      show beModifyStore txn.store _ tomb = _
      rw [htm]
      exact beModifyStore_filter_map txn.store
        (fun e => isRecycled e && Cid.ltCid e.lastModCid c) _ hu
  refine ⟨hst, ?_⟩
  intro e he hrec hlt
  refine ⟨e.toTombstone txn.cid, ?_, rfl, rfl, rfl, rfl⟩
  rw [hst]
  have hfe : (fun x => if isRecycled x && Cid.ltCid x.lastModCid c
      then x.toTombstone txn.cid else x) e = e.toTombstone txn.cid := by
    simp [hrec, hlt]
  rw [← hfe]
  exact List.mem_map_of_mem _ he

theorem c3_purge_recycled_witness :
    idUnique demoTxn.store
  ∧ Cid.subSecs demoTxn.cid 500 = .ok ⟨500⟩
  ∧ purgeRecycled 500 demoTxn = .ok demoPurgedRecycled
  ∧ demoPurgedRecycled.store = demoTxn.store.map (fun e =>
      if isRecycled e && Cid.ltCid e.lastModCid ⟨500⟩
      then e.toTombstone ⟨1000⟩ else e) :=
  ⟨by unfold idUnique; decide, rfl, rfl,
   (c3_purge_recycled 500 demoTxn demoPurgedRecycled ⟨500⟩
      (by unfold idUnique; decide) rfl rfl).1⟩

theorem pres_congr (e1 e2 : Entry) (a : String)
    (h : e1.getAva a = e2.getAva a) (v : Value) :
    e1.attributeValuePres a v = e2.attributeValuePres a v := by
  unfold Entry.attributeValuePres
  rw [h]

theorem dmInnerStep_s (u : Uuid) (acc : List (Uuid × List Modify)) (sv : String) :
    dmInnerStep u acc (.s sv) = acc := rfl

theorem dmInnerStep_ref_some (u g : Uuid) (acc : List (Uuid × List Modify))
    (q0 : Uuid × List Modify) (hf : acc.find? (fun q => q.fst == g) = some q0) :
    dmInnerStep u acc (.ref g)
      = acc.map (fun p => if p.fst == g
          then (p.fst, p.snd ++ [Modify.present "member" (.ref u)]) else p) := by
  show (match acc.find? (fun q => q.fst == g) with
    | some _ => acc.map (fun p : Uuid × List Modify => if p.fst == g
        then (p.fst, p.snd ++ [Modify.present "member" (.ref u)]) else p)
    | none => acc ++ [(g, [Modify.present "member" (.ref u)])]) = _
  rw [hf]

theorem dmInnerStep_ref_none (u g : Uuid) (acc : List (Uuid × List Modify))
    (hf : acc.find? (fun q => q.fst == g) = none) :
    dmInnerStep u acc (.ref g)
      = acc ++ [(g, [Modify.present "member" (.ref u)])] := by
  show (match acc.find? (fun q => q.fst == g) with
    | some _ => acc.map (fun p : Uuid × List Modify => if p.fst == g
        then (p.fst, p.snd ++ [Modify.present "member" (.ref u)]) else p)
    | none => acc ++ [(g, [Modify.present "member" (.ref u)])]) = _
  rw [hf]

theorem dmOuterStep_none (acc : List (Uuid × List Modify)) (e : Entry)
    (hg : e.getAva "directmemberof" = none) : dmOuterStep acc e = acc := by
  unfold dmOuterStep
  rw [hg]

theorem dmOuterStep_some (acc : List (Uuid × List Modify)) (e : Entry)
    (gs : List Value) (hg : e.getAva "directmemberof" = some gs) :
    dmOuterStep acc e = gs.foldl (dmInnerStep e.uuid) acc := by
  unfold dmOuterStep
  rw [hg]

theorem dmInnerStep_memberOnly (u : Uuid) (acc : List (Uuid × List Modify))
    (v : Value) (hacc : ∀ p ∈ acc, memberOnly p.snd) :
    ∀ p ∈ dmInnerStep u acc v, memberOnly p.snd := by
  intro p hp
  cases v with
  | s sv =>
    rw [dmInnerStep_s] at hp
    exact hacc p hp
  | ref g =>
    cases hf : acc.find? (fun q => q.fst == g) with
    | some q0 =>
      rw [dmInnerStep_ref_some u g acc q0 hf] at hp
      rcases List.mem_map.mp hp with ⟨q, hq, hqe⟩
      by_cases hqg : (q.fst == g) = true
      · rw [if_pos hqg] at hqe
        intro m hm
        rw [← hqe] at hm
        rcases List.mem_append.mp hm with h1 | h2
        · exact hacc q hq m h1
        · have hme : m = Modify.present "member" (.ref u) := by simpa using h2
          exact ⟨.ref u, hme⟩
      · rw [if_neg hqg] at hqe
        rw [← hqe]
        exact hacc q hq
    | none =>
      rw [dmInnerStep_ref_none u g acc hf] at hp
      rcases List.mem_append.mp hp with h1 | h2
      · exact hacc p h1
      · have hpe : p = (g, [Modify.present "member" (.ref u)]) := by simpa using h2
        intro m hm
        rw [hpe] at hm
        have hme : m = Modify.present "member" (.ref u) := by simpa using hm
        exact ⟨.ref u, hme⟩

theorem dmInnerStep_mono (u : Uuid) (acc : List (Uuid × List Modify))
    (v : Value) (g0 : Uuid) (m : Modify) (h : containsDM acc g0 m) :
    containsDM (dmInnerStep u acc v) g0 m := by
  obtain ⟨p, hp, hpg, hpm⟩ := h
  cases v with
  | s sv =>
    rw [dmInnerStep_s]
    exact ⟨p, hp, hpg, hpm⟩
  | ref g =>
    cases hf : acc.find? (fun q => q.fst == g) with
    | some q0 =>
      rw [dmInnerStep_ref_some u g acc q0 hf]
      refine ⟨if p.fst == g
          then (p.fst, p.snd ++ [Modify.present "member" (.ref u)]) else p,
        List.mem_map_of_mem _ hp, ?_, ?_⟩
      · by_cases hpg2 : (p.fst == g) = true
        · rw [if_pos hpg2]
          exact hpg
        · rw [if_neg hpg2]
          exact hpg
      · by_cases hpg2 : (p.fst == g) = true
        · rw [if_pos hpg2]
          exact List.mem_append_left _ hpm
        · rw [if_neg hpg2]
          exact hpm
    | none =>
      rw [dmInnerStep_ref_none u g acc hf]
      exact ⟨p, List.mem_append_left _ hp, hpg, hpm⟩

theorem dmInnerFold_mono (u : Uuid) (g0 : Uuid) (m : Modify) :
    ∀ (gs : List Value) (acc : List (Uuid × List Modify)),
      containsDM acc g0 m → containsDM (gs.foldl (dmInnerStep u) acc) g0 m := by
  intro gs
  induction gs with
  | nil => intro acc h; exact h
  | cons v rest ih =>
    intro acc h
    rw [List.foldl_cons]
    exact ih (dmInnerStep u acc v) (dmInnerStep_mono u acc v g0 m h)

theorem dmInnerStep_establish (u : Uuid) (acc : List (Uuid × List Modify))
    (g : Uuid) :
    containsDM (dmInnerStep u acc (.ref g)) g
      (Modify.present "member" (.ref u)) := by
  cases hf : acc.find? (fun q => q.fst == g) with
  | some q0 =>
    rw [dmInnerStep_ref_some u g acc q0 hf]
    have hq0 : q0 ∈ acc := List.mem_of_find?_eq_some hf
    have hq0g := List.find?_some hf
    refine ⟨(q0.fst, q0.snd ++ [Modify.present "member" (.ref u)]), ?_, ?_, ?_⟩
    · have hfe : (fun p : Uuid × List Modify =>
          if p.fst == g
          then (p.fst, p.snd ++ [Modify.present "member" (.ref u)]) else p) q0
        = (q0.fst, q0.snd ++ [Modify.present "member" (.ref u)]) := by
        simp only [hq0g, if_true]
      rw [← hfe]
      exact List.mem_map_of_mem _ hq0
    · simpa using hq0g
    · exact List.mem_append_right _ (by simp)
  | none =>
    rw [dmInnerStep_ref_none u g acc hf]
    refine ⟨(g, [Modify.present "member" (.ref u)]), ?_, rfl, by simp⟩
    exact List.mem_append_right _ (by simp)

theorem dmInnerFold_establish (u : Uuid) (g : Uuid) :
    ∀ (gs : List Value) (acc : List (Uuid × List Modify)),
      Value.ref g ∈ gs →
      containsDM (gs.foldl (dmInnerStep u) acc) g
        (Modify.present "member" (.ref u)) := by
  intro gs
  induction gs with
  | nil => intro acc h; cases h
  | cons v rest ih =>
    intro acc h
    rw [List.foldl_cons]
    rcases List.mem_cons.mp h with h1 | h2
    · rw [← h1]
      exact dmInnerFold_mono u g _ rest _ (dmInnerStep_establish u acc g)
    · exact ih (dmInnerStep u acc v) h2

theorem dmOuterStep_memberOnly (acc : List (Uuid × List Modify)) (e : Entry)
    (hacc : ∀ p ∈ acc, memberOnly p.snd) :
    ∀ p ∈ dmOuterStep acc e, memberOnly p.snd := by
  cases hg : e.getAva "directmemberof" with
  | none =>
    rw [dmOuterStep_none acc e hg]
    exact hacc
  | some gs =>
    rw [dmOuterStep_some acc e gs hg]
    clear hg
    induction gs generalizing acc with
    | nil => exact hacc
    | cons v rest ih =>
      rw [List.foldl_cons]
      exact ih (dmInnerStep e.uuid acc v) (dmInnerStep_memberOnly e.uuid acc v hacc)

theorem dmOuterStep_mono (acc : List (Uuid × List Modify)) (e : Entry)
    (g0 : Uuid) (m : Modify) (h : containsDM acc g0 m) :
    containsDM (dmOuterStep acc e) g0 m := by
  cases hg : e.getAva "directmemberof" with
  | none =>
    rw [dmOuterStep_none acc e hg]
    exact h
  | some gs =>
    rw [dmOuterStep_some acc e gs hg]
    exact dmInnerFold_mono e.uuid g0 m gs acc h

theorem dmOuterFold_mono (g0 : Uuid) (m : Modify) :
    ∀ (cands : List Entry) (acc : List (Uuid × List Modify)),
      containsDM acc g0 m → containsDM (cands.foldl dmOuterStep acc) g0 m := by
  intro cands
  induction cands with
  | nil => intro acc h; exact h
  | cons e rest ih =>
    intro acc h
    rw [List.foldl_cons]
    exact ih (dmOuterStep acc e) (dmOuterStep_mono acc e g0 m h)

theorem dmFold_memberOnly (cands : List Entry) :
    ∀ (acc : List (Uuid × List Modify)), (∀ p ∈ acc, memberOnly p.snd) →
      ∀ p ∈ cands.foldl dmOuterStep acc, memberOnly p.snd := by
  induction cands with
  | nil => intro acc hacc; exact hacc
  | cons e rest ih =>
    intro acc hacc
    rw [List.foldl_cons]
    exact ih (dmOuterStep acc e) (dmOuterStep_memberOnly acc e hacc)

theorem dmModsFor_memberOnly (cands : List Entry) :
    ∀ p ∈ dmModsFor cands, memberOnly p.snd := by
  unfold dmModsFor
  exact dmFold_memberOnly cands [] (by intro p hp; cases hp)

theorem dmFold_contains (e : Entry) (gs : List Value)
    (hg : e.getAva "directmemberof" = some gs) (g : Uuid)
    (hgg : Value.ref g ∈ gs) :
    ∀ (cands : List Entry), e ∈ cands →
      ∀ (acc : List (Uuid × List Modify)),
        containsDM (cands.foldl dmOuterStep acc) g
          (Modify.present "member" (.ref e.uuid)) := by
  intro cands
  induction cands with
  | nil => intro he; cases he
  | cons a rest ih =>
    intro he acc
    rw [List.foldl_cons]
    rcases List.mem_cons.mp he with h1 | h2
    · subst h1
      apply dmOuterFold_mono g _ rest
      rw [dmOuterStep_some acc e gs hg]
      exact dmInnerFold_establish e.uuid g gs acc hgg
    · exact ih h2 (dmOuterStep acc a)

theorem dmModsFor_contains (cands : List Entry) (e : Entry) (he : e ∈ cands)
    (gs : List Value) (hg : e.getAva "directmemberof" = some gs) (g : Uuid)
    (hgg : Value.ref g ∈ gs) :
    containsDM (dmModsFor cands) g (Modify.present "member" (.ref e.uuid)) := by
  unfold dmModsFor
  exact dmFold_contains e gs hg g hgg cands he []

theorem internalModify_ok_store (txn txn' : WriteTxn) (f : Entry → Bool)
    (ml : List Modify) (hu : idUnique txn.store)
    (h : internalModify txn f ml = .ok txn') :
    txn'.store = txn.store.map (fun e =>
      if f e then (e.invalidate txn.cid).applyModlist ml else e) := by
  have hst := modifyOp_ok_store ⟨f, ml, internalEvent⟩ txn txn' hu h
  rw [hst]
  apply List.map_eq_map_iff.mpr
  intro e he
  simp [evSel, internalEvent]

theorem revStep_ok (t t' : WriteTxn) (gm : Uuid × List Modify)
    (hmo : memberOnly gm.snd) (hu : idUnique t.store)
    (h : revStep t gm = .ok t') :
    idUnique t'.store
  ∧ (∀ i, noRecAt i t.store → noRecAt i t'.store)
  ∧ (∀ g0 w, memAt g0 w t.store → memAt g0 w t'.store)
  ∧ (∀ v, Modify.present "member" v ∈ gm.snd → memAt gm.fst v t'.store) := by
  have hst := internalModify_ok_store t t' (fun e => e.uuid == gm.fst) gm.snd hu h
  have hidf : ∀ e : Entry,
      ((fun e => if e.uuid == gm.fst
        then (e.invalidate t.cid).applyModlist gm.snd else e) e).id = e.id := by
    intro e
    by_cases hsel : (e.uuid == gm.fst) = true
    · simp [hsel, applyModlist_id, invalidate_id]
    · simp [hsel]
  have huuf : ∀ e : Entry,
      ((fun e => if e.uuid == gm.fst
        then (e.invalidate t.cid).applyModlist gm.snd else e) e).uuid = e.uuid := by
    intro e
    by_cases hsel : (e.uuid == gm.fst) = true
    · simp [hsel, applyModlist_uuid, invalidate_uuid]
    · simp [hsel]
  refine ⟨?_, ?_, ?_, ?_⟩
  · rw [hst]
    exact idUnique_map _ _ hidf hu
  · intro i hno e' he' hid
    rw [hst] at he'
    rcases List.mem_map.mp he' with ⟨a, ha, hfa⟩
    have haid : a.id = i := by
      rw [← hid, ← hfa]
      exact (hidf a).symm
    have hbase := hno a ha haid
    by_cases hsel : (a.uuid == gm.fst) = true
    · have hfa2 : e' = (a.invalidate t.cid).applyModlist gm.snd := by
        rw [← hfa]
        simp [hsel]
      rw [hfa2]
      have hC : ((a.invalidate t.cid).applyModlist gm.snd).getAva "class"
          = a.getAva "class" := by
        rw [getAva_applyModlist_memberOnly "class" (by decide) gm.snd hmo
            (a.invalidate t.cid)]
        rfl
      rw [pres_congr _ a "class" hC (.s "recycled")]
      exact hbase
    · have hfa2 : e' = a := by
        rw [← hfa]
        simp [hsel]
      rw [hfa2]
      exact hbase
  · intro g0 w hmem e' he' huu
    rw [hst] at he'
    rcases List.mem_map.mp he' with ⟨a, ha, hfa⟩
    have hauuid : a.uuid = g0 := by
      rw [← huu, ← hfa]
      exact (huuf a).symm
    have hbase := hmem a ha hauuid
    by_cases hsel : (a.uuid == gm.fst) = true
    · have hfa2 : e' = (a.invalidate t.cid).applyModlist gm.snd := by
        rw [← hfa]
        simp [hsel]
      rw [hfa2]
      apply pres_applyModlist_mono "member" w gm.snd hmo (a.invalidate t.cid)
      rw [invalidate_pres]
      exact hbase
    · have hfa2 : e' = a := by
        rw [← hfa]
        simp [hsel]
      rw [hfa2]
      exact hbase
  · intro v hv e' he' huu
    rw [hst] at he'
    rcases List.mem_map.mp he' with ⟨a, ha, hfa⟩
    have hauuid : a.uuid = gm.fst := by
      rw [← huu, ← hfa]
      exact (huuf a).symm
    have hsel : (a.uuid == gm.fst) = true := beq_iff_eq.mpr hauuid
    have hfa2 : e' = (a.invalidate t.cid).applyModlist gm.snd := by
      rw [← hfa]
      simp [hsel]
    rw [hfa2]
    exact pres_applyModlist_present v gm.snd hmo hv (a.invalidate t.cid)

theorem revFold_props :
    ∀ L : List (Uuid × List Modify), (∀ p ∈ L, memberOnly p.snd) →
      ∀ t t' : WriteTxn, L.foldlM revStep t = .ok t' → idUnique t.store →
        idUnique t'.store
      ∧ (∀ i, noRecAt i t.store → noRecAt i t'.store)
      ∧ (∀ g0 w, memAt g0 w t.store → memAt g0 w t'.store)
      ∧ (∀ p ∈ L, ∀ v, Modify.present "member" v ∈ p.snd →
          memAt p.fst v t'.store) := by
  intro L
  induction L with
  | nil =>
    intro _ t t' h hu
    rw [List.foldlM_nil] at h
    cases h
    exact ⟨hu, fun i hi => hi, fun g w hm => hm,
      fun p hp => absurd hp (List.not_mem_nil p)⟩
  | cons gm rest ih =>
    intro hmo t t' h hu
    rw [List.foldlM_cons] at h
    obtain ⟨t1, h1, hrest⟩ := except_bind_ok _ _ _ h
    have hmo1 : memberOnly gm.snd := hmo gm (List.mem_cons_self gm rest)
    have hmor : ∀ p ∈ rest, memberOnly p.snd :=
      fun p hp => hmo p (List.mem_cons_of_mem gm hp)
    obtain ⟨hu1, hno1, hmem1, hest1⟩ := revStep_ok t t1 gm hmo1 hu h1
    obtain ⟨hu2, hno2, hmem2, hest2⟩ := ih hmor t1 t' hrest hu1
    refine ⟨hu2, fun i hi => hno2 i (hno1 i hi),
      fun g w hm => hmem2 g w (hmem1 g w hm), ?_⟩
    intro p hp v hv
    rcases List.mem_cons.mp hp with h1' | h2'
    · rw [h1']
      rw [h1'] at hv
      exact hmem2 gm.fst v (hest1 v hv)
    · exact hest2 p h2' v hv

/-- C5: a successful revive_recycled removes `class = recycled` from every
entry matching the filter, and for each group listed in a revived entry's
`directmemberof` the entry is re-added to that group's `member`
attribute. -/
theorem c5_revive_restores (re : ReviveRecycledEvent) (txn txn' : WriteTxn)
    (hu : idUnique txn.store) (h : reviveRecycled re txn = .ok txn') :
    (∀ e ∈ impersonateSearch txn re.filter re.event,
       ∀ e' ∈ txn'.store, e'.id = e.id →
         e'.attributeValuePres "class" (.s "recycled") = false)
  ∧ (∀ e ∈ impersonateSearch txn re.filter re.event,
       ∀ gs, e.getAva "directmemberof" = some gs →
       ∀ g, Value.ref g ∈ gs →
       ∀ e' ∈ txn'.store, e'.uuid = g →
         e'.attributeValuePres "member" (.ref e.uuid) = true) := by
  unfold reviveRecycled at h
  obtain ⟨txn1, h1, hfold⟩ := except_bind_ok _ _ _ h
  have hmo := dmModsFor_memberOnly (impersonateSearch txn re.filter re.event)
  have hu1 := modifyOp_ok_idUnique _ txn txn1 hu h1
  obtain ⟨hu2, hno2, hmem2, hest2⟩ := revFold_props _ hmo txn1 txn' hfold hu1
  have hst1 := modifyOp_ok_store _ txn txn1 hu h1
  constructor
  · intro e he e' he' hid
    have hmemf := List.mem_filter.mp he
    have hno1 : noRecAt e.id txn1.store := by
      intro x hx hxid
      rw [hst1] at hx
      rcases List.mem_map.mp hx with ⟨a, ha, hfa⟩
      have haid : a.id = e.id := by
        rw [← hxid, ← hfa]
        by_cases hs : evSel re.filter re.event a = true
        · simp [hs, applyModlist_id, invalidate_id]
        · simp [hs]
      have hae : a = e := hu a ha e hmemf.1 haid
      have hx2 : x = (e.invalidate txn.cid).applyModlist reviveModlist := by
        rw [← hfa, hae]
        simp [hmemf.2]
      rw [hx2]
      exact pres_removeAva_self (e.invalidate txn.cid) "class" (.s "recycled")
    exact hno2 e.id hno1 e' he' hid
  · intro e he gs hgs g hgg e' he' huu
    obtain ⟨p, hp, hpg, hpm⟩ :=
      dmModsFor_contains _ e he gs hgs g hgg
    have hma := hest2 p hp (.ref e.uuid) hpm
    rw [hpg] at hma
    exact hma e' he' huu

theorem c5_revive_restores_witness :
    idUnique demoTxn.store
  ∧ reviveRecycled demoReviveEvent demoTxn = .ok demoRevived
  ∧ (∀ e' ∈ demoRevived.store, e'.uuid = 31 →
       e'.attributeValuePres "member" (.ref entRecycledUser.uuid) = true)
  ∧ (∀ e' ∈ demoRevived.store, e'.id = entRecycledUser.id →
       e'.attributeValuePres "class" (.s "recycled") = false) :=
  ⟨by unfold idUnique; decide, rfl,
   (c5_revive_restores demoReviveEvent demoTxn demoRevived
      (by unfold idUnique; decide) rfl).2
      entRecycledUser (by decide) [.ref 31] rfl 31 (by decide),
   (c5_revive_restores demoReviveEvent demoTxn demoRevived
      (by unfold idUnique; decide) rfl).1
      entRecycledUser (by decide)⟩

end Kanidm
